import Mathlib

set_option maxRecDepth 100000
set_option autoImplicit false

/-!
Shallow embedding of the NostrLinkr Solidity contract (the identity-linking
registry binding Ethereum addresses to Nostr/BIP-340 public keys), together
with proofs about its event canonicalization, signature checks and the
bidirectional link registry.

Modelling conventions:
* Solidity `uint256` / `bytes32` values are `Nat` (Solidity 0.8 reverts on
  overflow rather than wrapping, and no operation here can overflow).
* `address` values are `Nat` below `2 ^ 160`; the EVM guarantees that
  `msg.sender` is never the zero address, which the reachability predicates
  record explicitly.
* Solidity `string` / `bytes` values are `List Nat`, one byte per entry.
* The contract compares strings via `keccak256` equality of their bytes; the
  embedding models this idiom as plain byte-list equality.
* `mapping` storage is a total function `Nat → Nat` whose default value is
  `0`, exactly the EVM storage semantics (zero doubles as absence sentinel).
* `sha256` is embedded as the genuine FIPS 180-4 algorithm over byte lists.
* A `require` failure reverts the transaction; functions therefore return
  `Except` with one error constructor per revert message, and a reverted
  call leaves the registry state untouched (`pushLinkrTx`).
-/

/-- Update one key of a Solidity `mapping` (total function, default `0`). -/
def mapSet (m : Nat → Nat) (k v : Nat) : Nat → Nat :=
  fun x => if x = k then v else m x

/-- Byte list of an ASCII string literal (every literal in the contract is
ASCII, so UTF-8 bytes coincide with code points). -/
def strBytes (s : String) : List Nat :=
  s.data.map Char.toNat

/-- The contract's hex alphabet "0123456789abcdef". -/
def hexAlphabet : List Nat := strBytes "0123456789abcdef"

/-- Solidity helper `bytesToHexNoPrefix` of the contract: lowercase hex
rendering of a byte string, two hex characters per byte, no 0x prefix.
`b / 16` is `b >> 4` and `b % 16` is `b & 0x0f`. -/
def bytesToHexNoPfx : List Nat → List Nat
  | [] => []
  | b :: rest =>
      hexAlphabet.getD (b / 16) 0 :: hexAlphabet.getD (b % 16) 0 :: bytesToHexNoPfx rest

/-- Big-endian byte rendering of a natural number on `k` bytes (the behavior
of `abi.encodePacked` on fixed-width words). -/
def natToBeBytes : Nat → Nat → List Nat
  | 0, _ => []
  | k + 1, n => natToBeBytes k (n / 256) ++ [n % 256]

/-- Big-endian value of a byte list (how `uint256(bytes32 x)` reads bytes). -/
def beBytesToNat (l : List Nat) : Nat :=
  l.foldl (fun acc b => acc * 256 + b) 0

/-- Solidity helper `uint2str` of the contract (decimal rendering), written
with explicit fuel so that the kernel can evaluate it; fuel `n` suffices
because the number of digits of `n` never exceeds `n` for `n ≥ 1`. -/
def uint2strAux : Nat → Nat → List Nat
  | 0, _ => []
  | fuel + 1, n => if n = 0 then [] else uint2strAux fuel (n / 10) ++ [48 + n % 10]

/-- Solidity helper `uint2str`: `0` renders as "0", otherwise the plain
decimal digits, most significant first. -/
def uint2str (n : Nat) : List Nat :=
  if n = 0 then [48] else uint2strAux n n

/-- Solidity helper `addressToStringNoPrefix` of the contract: the 40
lowercase hex characters of the 20-byte address, no 0x prefix.  The source
renders bytes 12..31 of `bytes32(uint256(uint160(addr)))`, which are exactly
the 20 big-endian bytes of `addr % 2 ^ 160`. -/
def addressToStringNoPfx (addr : Nat) : List Nat :=
  bytesToHexNoPfx (natToBeBytes 20 (addr % 2 ^ 160))

/-! ### SHA-256 (FIPS 180-4) over byte lists -/

/-- The 64 SHA-256 round constants, written in decimal. -/
def sha256K : List Nat :=
  [1116352408, 1899447441, 3049323471, 3921009573, 961987163,
   1508970993, 2453635748, 2870763221, 3624381080, 310598401,
   607225278, 1426881987, 1925078388, 2162078206, 2614888103,
   3248222580, 3835390401, 4022224774, 264347078, 604807628,
   770255983, 1249150122, 1555081692, 1996064986, 2554220882,
   2821834349, 2952996808, 3210313671, 3336571891, 3584528711,
   113926993, 338241895, 666307205, 773529912, 1294757372,
   1396182291, 1695183700, 1986661051, 2177026350, 2456956037,
   2730485921, 2820302411, 3259730800, 3345764771, 3516065817,
   3600352804, 4094571909, 275423344, 430227734, 506948616,
   659060556, 883997877, 958139571, 1322822218, 1537002063,
   1747873779, 1955562222, 2024104815, 2227730452, 2361852424,
   2428436474, 2756734187, 3204031479, 3329325298]

/-- The eight SHA-256 initial hash words, written in decimal. -/
def sha256H0 : List Nat :=
  [1779033703, 3144134277, 1013904242, 2773480762,
   1359893119, 2600822924, 528734635, 1541459225]

/-- Rotate a 32-bit word right by `n` positions, in plain arithmetic on
`Nat` (valid for `x < 2 ^ 32` and `0 < n < 32`). -/
def rotr32 (n x : Nat) : Nat :=
  x / 2 ^ n + x % 2 ^ n * 2 ^ (32 - n)

/-- SHA-256 choice function. -/
def sha256Ch (e f g : Nat) : Nat :=
  (e &&& f) ^^^ ((e ^^^ 4294967295) &&& g)

/-- SHA-256 majority function. -/
def sha256Maj (a b c : Nat) : Nat :=
  (a &&& b) ^^^ (a &&& c) ^^^ (b &&& c)

/-- SHA-256 big sigma 0. -/
def bigSigma0 (a : Nat) : Nat := rotr32 2 a ^^^ rotr32 13 a ^^^ rotr32 22 a

/-- SHA-256 big sigma 1. -/
def bigSigma1 (e : Nat) : Nat := rotr32 6 e ^^^ rotr32 11 e ^^^ rotr32 25 e

/-- SHA-256 small sigma 0 (`x / 8` is `x >> 3`). -/
def smallSigma0 (x : Nat) : Nat := rotr32 7 x ^^^ rotr32 18 x ^^^ x / 8

/-- SHA-256 small sigma 1 (`x / 1024` is `x >> 10`). -/
def smallSigma1 (x : Nat) : Nat := rotr32 17 x ^^^ rotr32 19 x ^^^ x / 1024

/-- SHA-256 padding: a 0x80 byte, zeros to 56 mod 64, then the 8-byte
big-endian bit length. -/
def sha256Pad (msg : List Nat) : List Nat :=
  msg ++ 128 :: List.replicate ((119 - msg.length % 64) % 64) 0 ++
    natToBeBytes 8 (8 * msg.length)

/-- Group bytes into big-endian 32-bit words. -/
def bytesToWords : List Nat → List Nat
  | b0 :: b1 :: b2 :: b3 :: rest =>
      (((b0 * 256 + b1) * 256 + b2) * 256 + b3) :: bytesToWords rest
  | _ => []

/-- Split a word list into 16-word blocks (fuel-driven for kernel
evaluability; fuel bounded by the list length suffices). -/
def chunk16Aux : Nat → List Nat → List (List Nat)
  | 0, _ => []
  | _ + 1, [] => []
  | fuel + 1, w :: ws => ((w :: ws).take 16) :: chunk16Aux fuel ((w :: ws).drop 16)

/-- One message-schedule extension step. -/
def scheduleStep (w : List Nat) : List Nat :=
  w ++ [(smallSigma1 (w.getD (w.length - 2) 0) + w.getD (w.length - 7) 0 +
         smallSigma0 (w.getD (w.length - 15) 0) + w.getD (w.length - 16) 0) % 4294967296]

/-- Full 64-word message schedule of a 16-word block. -/
def sha256Schedule (block : List Nat) : List Nat :=
  (List.range 48).foldl (fun w _ => scheduleStep w) block

/-- One SHA-256 compression round on the eight-word working state. -/
def sha256Round (st : List Nat) (kw : Nat × Nat) : List Nat :=
  match st with
  | [a, b, c, d, e, f, g, h] =>
      [(h + bigSigma1 e + sha256Ch e f g + kw.1 + kw.2 +
          (bigSigma0 a + sha256Maj a b c)) % 4294967296,
       a, b, c,
       (d + h + bigSigma1 e + sha256Ch e f g + kw.1 + kw.2) % 4294967296,
       e, f, g]
  | other => other

/-- Compression of one block into the running hash. -/
def sha256Compress (h : List Nat) (block : List Nat) : List Nat :=
  (h.zip ((sha256K.zip (sha256Schedule block)).foldl sha256Round h)).map
    (fun p => (p.1 + p.2) % 4294967296)

/-- SHA-256 digest of a byte list, as eight 32-bit words. -/
def sha256Words (msg : List Nat) : List Nat :=
  (chunk16Aux (bytesToWords (sha256Pad msg)).length (bytesToWords (sha256Pad msg))).foldl
    sha256Compress sha256H0

/-- SHA-256 digest interpreted as a 32-byte big-endian value, i.e. the
`bytes32` the EVM `sha256` precompile returns, read as a `uint256`. -/
def sha256Nat (msg : List Nat) : Nat :=
  (sha256Words msg).foldl (fun acc w => acc * 4294967296 + w) 0

/-! ### The NostrLinkr contract -/

/-- The secp256k1 group order, as hard-coded in `verifySchnorrSignature`. -/
def curveOrder : Nat :=
  0xFFFFFFFFFFFFFFFFFFFFFFFFFFFFFFFEBAAEDCE6AF48A03BBFD25E8CD0364141

/-- The `r` component of a 64-byte signature: bytes 0..31, big-endian
(`bytes32(signature[0:32])` read as `uint256`). -/
def sigR (sig : List Nat) : Nat := beBytesToNat (sig.take 32)

/-- The `s` component of a 64-byte signature: bytes 32..63, big-endian
(`bytes32(signature[32:64])` read as `uint256`). -/
def sigS (sig : List Nat) : Nat := beBytesToNat ((sig.drop 32).take 32)

/-- Contract function `verifySchnorrSignature`: only range checks on `r` and
`s` (`s` first, then `r`, as in the source); any in-range pair is accepted
without elliptic-curve arithmetic. -/
def verifySchnorrSignature (pubkey message : Nat) (signature : List Nat) : Bool :=
  if sigS signature = 0 ∨ curveOrder ≤ sigS signature then false
  else if sigR signature = 0 ∨ curveOrder ≤ sigR signature then false
  else true

/-- Revert reasons of `verifyNostrEvent`: "Signature must be 64 bytes" and
"Event ID mismatch". -/
inductive VerifyError where
  | signatureNot64 : VerifyError
  | eventIdMismatch : VerifyError
deriving DecidableEq

/-- The canonical NIP-01 serialization built by `verifyNostrEvent`:
`[0,"<pubkey-hex>",<createdAt>,<kind>,<tags>,"<content>"]` with the
64-character lowercase unprefixed hex of the 32-byte pubkey, plain decimal
integers, and `tags`/`content` inserted verbatim. -/
def serializeNostrEvent (pubkey createdAt kind : Nat) (tags content : List Nat) : List Nat :=
  strBytes "[0,\"" ++ bytesToHexNoPfx (natToBeBytes 32 pubkey) ++ strBytes "\"," ++
  uint2str createdAt ++ strBytes "," ++ uint2str kind ++ strBytes "," ++
  tags ++ strBytes ",\"" ++ content ++ strBytes "\"]"

/-- Contract function `verifyNostrEvent`: length check, recompute the event
id as SHA-256 of the canonical serialization, compare with the asserted id,
then run the Schnorr range checks with the event id as message. -/
def verifyNostrEvent (eventId pubkey createdAt kind : Nat) (tags content : List Nat)
    (signature : List Nat) : Except VerifyError Bool :=
  if signature.length ≠ 64 then Except.error VerifyError.signatureNot64
  else if sha256Nat (serializeNostrEvent pubkey createdAt kind tags content) ≠ eventId then
    Except.error VerifyError.eventIdMismatch
  else Except.ok (verifySchnorrSignature pubkey eventId signature)

/-- The contract storage: `addressPubkey` (forward map) and `pubkeyAddress`
(reverse map), both total with default value `0`. -/
structure LinkrState where
  addressPubkey : Nat → Nat
  pubkeyAddress : Nat → Nat

/-- Freshly deployed contract: both mappings empty (all zero). -/
def initState : LinkrState :=
  { addressPubkey := fun _ => 0, pubkeyAddress := fun _ => 0 }

/-- Revert reasons of `pushLinkr`, one per `require`. -/
inductive PushError where
  | invalidSignatureLength : PushError
  | invalidKind : PushError
  | createdAtInFuture : PushError
  | tagsNotEmpty : PushError
  | contentMismatch : PushError
  | verifyFailed : VerifyError → PushError
  | invalidNostrSignature : PushError
deriving DecidableEq

/-- The reverse map after `pushLinkr`'s first cleanup: if the sender already
has a linked key, its reverse entry is deleted. -/
def pushR1 (s : LinkrState) (sender : Nat) : Nat → Nat :=
  if s.addressPubkey sender ≠ 0 then
    mapSet s.pubkeyAddress (s.addressPubkey sender) 0
  else s.pubkeyAddress

/-- The forward map after `pushLinkr`'s second cleanup: if the new key is
already claimed (as read from the map after the first cleanup), that
claimant's forward entry is deleted. -/
def pushF1 (s : LinkrState) (sender pubkey : Nat) : Nat → Nat :=
  if pushR1 s sender pubkey ≠ 0 then
    mapSet s.addressPubkey (pushR1 s sender pubkey) 0
  else s.addressPubkey

/-- The storage-write suffix of `pushLinkr` (everything after the last
`require`): both cleanups, then the new bidirectional link. -/
def pushCommit (s : LinkrState) (sender pubkey : Nat) : LinkrState :=
  { addressPubkey := mapSet (pushF1 s sender pubkey) sender pubkey,
    pubkeyAddress := mapSet (pushR1 s sender) pubkey sender }

/-- The bytes of the string literal "[]" the contract compares tags with. -/
def jsonEmptyTags : List Nat := strBytes "[]"

/-- The future-timestamp tolerance hard-coded in `pushLinkr` (seconds). -/
def skewTolerance : Nat := 10000

/-- The fixed Nostr event kind accepted by `pushLinkr`. -/
def linkrKind : Nat := 27235

/-- Contract function `pushLinkr` (`sender` is `msg.sender`, `now` is
`block.timestamp`): the five validation `require`s in source order, the
event verification, then the commit. -/
def pushLinkr (s : LinkrState) (sender id pubkey createdAt kind : Nat)
    (tags content sig : List Nat) (now : Nat) : Except PushError LinkrState :=
  if sig.length ≠ 64 then Except.error PushError.invalidSignatureLength
  else if kind ≠ linkrKind then Except.error PushError.invalidKind
  else if now + skewTolerance < createdAt then Except.error PushError.createdAtInFuture
  else if tags ≠ jsonEmptyTags then Except.error PushError.tagsNotEmpty
  else if content ≠ addressToStringNoPfx sender then Except.error PushError.contentMismatch
  else
    match verifyNostrEvent id pubkey createdAt kind tags content sig with
    | Except.error e => Except.error (PushError.verifyFailed e)
    | Except.ok false => Except.error PushError.invalidNostrSignature
    | Except.ok true => Except.ok (pushCommit s sender pubkey)

/-- Revert reason of `pullLinkr`: "No link found for this address". -/
inductive PullError where
  | noLinkFound : PullError
deriving DecidableEq

/-- Contract function `pullLinkr`: require an existing link for the caller,
then delete both sides. -/
def pullLinkr (s : LinkrState) (sender : Nat) : Except PullError LinkrState :=
  if s.addressPubkey sender = 0 then Except.error PullError.noLinkFound
  else Except.ok
    { addressPubkey := mapSet s.addressPubkey sender 0,
      pubkeyAddress := mapSet s.pubkeyAddress (s.addressPubkey sender) 0 }

/-- Transaction-level view of `pushLinkr`: a revert restores the pre-call
storage, so the observable post-state of a failed call is the old state
paired with the typed error. -/
def pushLinkrTx (s : LinkrState) (sender id pubkey createdAt kind : Nat)
    (tags content sig : List Nat) (now : Nat) : LinkrState × Option PushError :=
  match pushLinkr s sender id pubkey createdAt kind tags content sig now with
  | Except.ok s' => (s', none)
  | Except.error e => (s, some e)

/-- States reachable from deployment by any sequence of (successful) `push`
and `pull` calls.  The EVM guarantees `msg.sender ≠ 0` for every call. -/
inductive Reachable : LinkrState → Prop where
  | init : Reachable initState
  | push {s s' : LinkrState} {sender id pubkey createdAt kind now : Nat}
      {tags content sig : List Nat} :
      Reachable s → sender ≠ 0 →
      pushLinkr s sender id pubkey createdAt kind tags content sig now = Except.ok s' →
      Reachable s'
  | pull {s s' : LinkrState} {sender : Nat} :
      Reachable s → sender ≠ 0 → pullLinkr s sender = Except.ok s' → Reachable s'

/-- States reachable when, additionally, every push supplies a nonzero
Schnorr pubkey. -/
inductive ReachableNZ : LinkrState → Prop where
  | init : ReachableNZ initState
  | push {s s' : LinkrState} {sender id pubkey createdAt kind now : Nat}
      {tags content sig : List Nat} :
      ReachableNZ s → sender ≠ 0 → pubkey ≠ 0 →
      pushLinkr s sender id pubkey createdAt kind tags content sig now = Except.ok s' →
      ReachableNZ s'
  | pull {s s' : LinkrState} {sender : Nat} :
      ReachableNZ s → sender ≠ 0 → pullLinkr s sender = Except.ok s' → ReachableNZ s'

/-- Forward half of the bijection invariant: every nonzero forward entry has
a matching reverse entry. -/
def ForwardInv (s : LinkrState) : Prop :=
  ∀ a, s.addressPubkey a ≠ 0 → s.pubkeyAddress (s.addressPubkey a) = a

/-- Reverse half of the bijection invariant: every nonzero reverse entry has
a matching forward entry. -/
def ReverseInv (s : LinkrState) : Prop :=
  ∀ p, s.pubkeyAddress p ≠ 0 → s.addressPubkey (s.pubkeyAddress p) = p

/-- `a` and `p` form a linked pair, read off either side of the registry. -/
def Linked (s : LinkrState) (a p : Nat) : Prop :=
  (p ≠ 0 ∧ s.addressPubkey a = p) ∨ (a ≠ 0 ∧ s.pubkeyAddress p = a)

/-- A 64-byte signature with `r = s = 1`, inside the accepted range. -/
def goodSig : List Nat :=
  List.replicate 31 0 ++ [1] ++ List.replicate 31 0 ++ [1]

/-- The correct event id for a linking event of `sender` with key `pk` at
`createdAt = 0`: the digest `verifyNostrEvent` recomputes. -/
def goodId (sender pk : Nat) : Nat :=
  sha256Nat (serializeNostrEvent pk 0 linkrKind jsonEmptyTags (addressToStringNoPfx sender))

/-! ### Spec-side characterizations of the renderings -/

/-- Numeric value of an ASCII hex digit from the contract's alphabet. -/
def hexDigitVal (d : Nat) : Nat := if d ≤ 57 then d - 48 else d - 87

/-- `d` is an ASCII digit `0`-`9` or lowercase `a`-`f`. -/
def isLowerHexDigit (d : Nat) : Bool :=
  (48 ≤ d && d ≤ 57) || (97 ≤ d && d ≤ 102)

/-- Big-endian numeric value of an ASCII hex string. -/
def hexValue (l : List Nat) : Nat :=
  l.foldl (fun a d => a * 16 + hexDigitVal d) 0

/-- Numeric value of an ASCII decimal string. -/
def decValue (l : List Nat) : Nat :=
  l.foldl (fun a d => a * 10 + (d - 48)) 0

/-- `l` is a plain decimal integer: nonempty, only digits `0`-`9`, and no
leading zero (a leading `0` only in the single-character rendering of 0). -/
def isPlainDecimal (l : List Nat) : Prop :=
  l ≠ [] ∧ (∀ d, d ∈ l → 48 ≤ d ∧ d ≤ 57) ∧ (l.headD 0 = 48 → l = [48])

/-! ### Helper lemmas: maps -/

theorem mapSet_same (m : Nat → Nat) (k v : Nat) : mapSet m k v k = v := by
  simp [mapSet]

theorem mapSet_other (m : Nat → Nat) (k v x : Nat) (h : x ≠ k) :
    mapSet m k v x = m x := by
  simp [mapSet, h]

/-! ### Helper lemmas: big-endian bytes -/

theorem natToBeBytes_length : ∀ (k n : Nat), (natToBeBytes k n).length = k := by
  intro k
  induction k with
  | zero => intro n; rfl
  | succ k ih => intro n; simp [natToBeBytes, ih]

theorem natToBeBytes_lt : ∀ (k n b : Nat), b ∈ natToBeBytes k n → b < 256 := by
  intro k
  induction k with
  | zero => intro n b hb; simp [natToBeBytes] at hb
  | succ k ih =>
      intro n b hb
      simp only [natToBeBytes, List.mem_append, List.mem_singleton] at hb
      rcases hb with hb | hb
      · exact ih _ _ hb
      · subst hb; exact Nat.mod_lt _ (by omega)

theorem beBytesToNat_append_one (l : List Nat) (b : Nat) :
    beBytesToNat (l ++ [b]) = beBytesToNat l * 256 + b := by
  simp [beBytesToNat, List.foldl_append]

theorem beBytesToNat_natToBeBytes : ∀ (k n : Nat),
    beBytesToNat (natToBeBytes k n) = n % 256 ^ k := by
  intro k
  induction k with
  | zero => intro n; simp [natToBeBytes, beBytesToNat, Nat.mod_one]
  | succ k ih =>
      intro n
      rw [natToBeBytes, beBytesToNat_append_one, ih,
        show (256 : Nat) ^ (k + 1) = 256 * 256 ^ k by ring, Nat.mod_mul]
      ring

/-! ### Helper lemmas: hex rendering -/

theorem hexAlphabet_spec : ∀ b, b < 256 →
    isLowerHexDigit (hexAlphabet.getD (b / 16) 0) = true ∧
    isLowerHexDigit (hexAlphabet.getD (b % 16) 0) = true ∧
    hexDigitVal (hexAlphabet.getD (b / 16) 0) = b / 16 ∧
    hexDigitVal (hexAlphabet.getD (b % 16) 0) = b % 16 := by
  decide

theorem bytesToHexNoPfx_length : ∀ (l : List Nat),
    (bytesToHexNoPfx l).length = 2 * l.length := by
  intro l
  induction l with
  | nil => rfl
  | cons b rest ih => simp [bytesToHexNoPfx, ih]; omega

theorem bytesToHexNoPfx_digits : ∀ (l : List Nat), (∀ b, b ∈ l → b < 256) →
    ∀ d, d ∈ bytesToHexNoPfx l → isLowerHexDigit d = true := by
  intro l
  induction l with
  | nil => intro _ d hd; simp [bytesToHexNoPfx] at hd
  | cons b rest ih =>
      intro hb d hd
      have hb256 : b < 256 := hb b (by simp)
      simp only [bytesToHexNoPfx, List.mem_cons] at hd
      rcases hd with hd | hd | hd
      · subst hd; exact (hexAlphabet_spec b hb256).1
      · subst hd; exact (hexAlphabet_spec b hb256).2.1
      · exact ih (fun x hx => hb x (by simp [hx])) d hd

theorem hexValue_foldl_bytesToHexNoPfx : ∀ (l : List Nat), (∀ b, b ∈ l → b < 256) →
    ∀ acc, List.foldl (fun a d => a * 16 + hexDigitVal d) acc (bytesToHexNoPfx l) =
      List.foldl (fun a b => a * 256 + b) acc l := by
  intro l
  induction l with
  | nil => intro _ acc; rfl
  | cons b rest ih =>
      intro hb acc
      have hb256 : b < 256 := hb b (by simp)
      have hdiv := (hexAlphabet_spec b hb256).2.2.1
      have hmod := (hexAlphabet_spec b hb256).2.2.2
      simp only [bytesToHexNoPfx, List.foldl_cons, hdiv, hmod]
      rw [ih (fun x hx => hb x (by simp [hx]))]
      have hdm := Nat.div_add_mod b 16
      congr 1
      omega

theorem hexValue_bytesToHexNoPfx (l : List Nat) (h : ∀ b, b ∈ l → b < 256) :
    hexValue (bytesToHexNoPfx l) = beBytesToNat l :=
  hexValue_foldl_bytesToHexNoPfx l h 0

/-! ### Helper lemmas: decimal rendering -/

theorem uint2strAux_zero : ∀ fuel, uint2strAux fuel 0 = [] := by
  intro fuel; cases fuel <;> simp [uint2strAux]

theorem uint2strAux_foldl : ∀ (fuel n : Nat), 0 < n → n ≤ fuel →
    ∀ acc, List.foldl (fun a d => a * 10 + (d - 48)) acc (uint2strAux fuel n) =
      acc * 10 ^ (uint2strAux fuel n).length + n := by
  intro fuel
  induction fuel with
  | zero => intro n hn hle; omega
  | succ fuel ih =>
      intro n hn hle acc
      rw [uint2strAux, if_neg (by omega)]
      by_cases hq : n / 10 = 0
      · rw [hq, uint2strAux_zero]
        simp only [List.nil_append, List.foldl_cons, List.foldl_nil, List.length_cons,
          List.length_nil, Nat.zero_add, pow_one]
        omega
      · have hlt : n / 10 < n := Nat.div_lt_self hn (by omega)
        rw [List.foldl_append, ih (n / 10) (by omega) (by omega) acc]
        simp only [List.foldl_cons, List.foldl_nil, List.length_append, List.length_cons,
          List.length_nil, Nat.zero_add, pow_succ]
        have hassoc : acc * ((10 : Nat) ^ (uint2strAux fuel (n / 10)).length * 10) =
            acc * 10 ^ (uint2strAux fuel (n / 10)).length * 10 := by ring
        rw [hassoc]
        omega

theorem uint2strAux_digits : ∀ (fuel n d : Nat), d ∈ uint2strAux fuel n →
    48 ≤ d ∧ d ≤ 57 := by
  intro fuel
  induction fuel with
  | zero => intro n d hd; simp [uint2strAux] at hd
  | succ fuel ih =>
      intro n d hd
      rw [uint2strAux] at hd
      by_cases hn : n = 0
      · simp [hn] at hd
      · rw [if_neg hn] at hd
        simp only [List.mem_append, List.mem_singleton] at hd
        rcases hd with hd | hd
        · exact ih _ _ hd
        · have : n % 10 < 10 := Nat.mod_lt _ (by omega)
          omega

theorem uint2strAux_head : ∀ (fuel n : Nat), 0 < n → n ≤ fuel →
    ∃ d t, uint2strAux fuel n = d :: t ∧ d ≠ 48 := by
  intro fuel
  induction fuel with
  | zero => intro n hn hle; omega
  | succ fuel ih =>
      intro n hn hle
      rw [uint2strAux, if_neg (by omega)]
      by_cases hq : n / 10 = 0
      · refine ⟨48 + n % 10, [], ?_, ?_⟩
        · rw [hq, uint2strAux_zero]; rfl
        · have h10 : n < 10 := by omega
          have : n % 10 = n := Nat.mod_eq_of_lt h10
          omega
      · obtain ⟨d, t, heq, hd⟩ := ih (n / 10)
          (by omega) (by omega : n / 10 ≤ fuel)
        exact ⟨d, t ++ [48 + n % 10], by rw [heq]; rfl, hd⟩

theorem uint2str_plainDecimal (n : Nat) : isPlainDecimal (uint2str n) := by
  unfold uint2str isPlainDecimal
  by_cases hn : n = 0
  · simp [hn]
  · rw [if_neg hn]
    obtain ⟨d, t, heq, hd⟩ := uint2strAux_head n n (by omega) le_rfl
    refine ⟨by rw [heq]; simp, fun x hx => uint2strAux_digits n n x hx, ?_⟩
    rw [heq]
    intro hhead
    simp only [List.headD_cons] at hhead
    omega

theorem uint2str_decValue (n : Nat) : decValue (uint2str n) = n := by
  unfold uint2str decValue
  by_cases hn : n = 0
  · simp [hn]
  · rw [if_neg hn, uint2strAux_foldl n n (by omega) le_rfl 0]
    simp

/-! ### Helper lemmas: the commit -/

theorem pushCommit_F_sender (s : LinkrState) (sender pk : Nat) :
    (pushCommit s sender pk).addressPubkey sender = pk := by
  simp [pushCommit, mapSet]

theorem pushCommit_F_other (s : LinkrState) (sender pk a : Nat) (h : a ≠ sender) :
    (pushCommit s sender pk).addressPubkey a = pushF1 s sender pk a := by
  simp [pushCommit, mapSet, h]

theorem pushCommit_R_pk (s : LinkrState) (sender pk : Nat) :
    (pushCommit s sender pk).pubkeyAddress pk = sender := by
  simp [pushCommit, mapSet]

theorem pushCommit_R_other (s : LinkrState) (sender pk p : Nat) (h : p ≠ pk) :
    (pushCommit s sender pk).pubkeyAddress p = pushR1 s sender p := by
  simp [pushCommit, mapSet, h]

theorem pushR1_cases (s : LinkrState) (sender p : Nat) :
    pushR1 s sender p = s.pubkeyAddress p ∧
      (s.addressPubkey sender = 0 ∨ p ≠ s.addressPubkey sender) ∨
    pushR1 s sender p = 0 ∧ s.addressPubkey sender ≠ 0 ∧ p = s.addressPubkey sender := by
  unfold pushR1
  by_cases h0 : s.addressPubkey sender = 0
  · left; simp [h0]
  · rw [if_pos h0]
    by_cases hp : p = s.addressPubkey sender
    · right; subst hp; simp [mapSet, h0]
    · left; simp [mapSet, hp, h0]

theorem pushF1_cases (s : LinkrState) (sender pk a : Nat) :
    pushF1 s sender pk a = s.addressPubkey a ∧
      (pushR1 s sender pk = 0 ∨ a ≠ pushR1 s sender pk) ∨
    pushF1 s sender pk a = 0 ∧ pushR1 s sender pk ≠ 0 ∧ a = pushR1 s sender pk := by
  unfold pushF1
  by_cases h0 : pushR1 s sender pk = 0
  · left; simp [h0]
  · rw [if_pos h0]
    by_cases ha : a = pushR1 s sender pk
    · right; subst ha; simp [mapSet, h0]
    · left; simp [mapSet, ha, h0]

/-! ### Helper lemmas: call inversions -/

theorem pushLinkr_ok {s : LinkrState} {sender id pubkey createdAt kind now : Nat}
    {tags content sig : List Nat} {s' : LinkrState}
    (h : pushLinkr s sender id pubkey createdAt kind tags content sig now = Except.ok s') :
    s' = pushCommit s sender pubkey := by
  unfold pushLinkr at h
  repeat' split at h
  all_goals simp_all

theorem pullLinkr_ok {s : LinkrState} {sender : Nat} {s' : LinkrState}
    (h : pullLinkr s sender = Except.ok s') :
    s.addressPubkey sender ≠ 0 ∧
    s' = { addressPubkey := mapSet s.addressPubkey sender 0,
           pubkeyAddress := mapSet s.pubkeyAddress (s.addressPubkey sender) 0 } := by
  unfold pullLinkr at h
  split at h
  · exact absurd h (by simp)
  · rename_i hne
    exact ⟨hne, by simpa using h.symm⟩

/-! ### Invariant preservation -/

theorem pushCommit_forward (s : LinkrState) (sender pk : Nat)
    (h1 : ForwardInv s) (hF0 : s.addressPubkey 0 = 0) (hs : sender ≠ 0) :
    ForwardInv (pushCommit s sender pk) ∧ (pushCommit s sender pk).addressPubkey 0 = 0 := by
  constructor
  · intro a ha
    by_cases hsend : a = sender
    · subst hsend
      rw [pushCommit_F_sender] at ha ⊢
      rw [pushCommit_R_pk]
    · rw [pushCommit_F_other s sender pk a hsend] at ha ⊢
      rcases pushF1_cases s sender pk a with ⟨heq, hside⟩ | ⟨heq, _, _⟩
      · rw [heq] at ha ⊢
        have hane : a ≠ 0 := by
          intro h0
          rw [h0, hF0] at ha
          exact ha rfl
        by_cases hfp : s.addressPubkey a = pk
        · exfalso
          have hRpk : s.pubkeyAddress pk = a := hfp ▸ h1 a ha
          rcases pushR1_cases s sender pk with ⟨hr, _⟩ | ⟨hr, hFs, hpk⟩
          · rw [hRpk] at hr
            rcases hside with h0 | hne2
            · rw [hr] at h0; exact hane h0
            · rw [hr] at hne2; exact hne2 rfl
          · have hsender' := h1 sender hFs
            rw [← hpk, hRpk] at hsender'
            exact hsend hsender'
        · rw [pushCommit_R_other s sender pk _ hfp]
          rcases pushR1_cases s sender (s.addressPubkey a) with ⟨hr, _⟩ | ⟨hr, hFs, hpa⟩
          · rw [hr]; exact h1 a ha
          · exfalso
            have hsa := h1 sender hFs
            have haa := h1 a ha
            rw [← hpa] at hsa
            rw [hsa] at haa
            exact hsend haa.symm
      · exact absurd heq ha
  · rw [pushCommit_F_other s sender pk 0 (Ne.symm hs)]
    rcases pushF1_cases s sender pk 0 with ⟨heq, _⟩ | ⟨heq, _, _⟩
    · rw [heq, hF0]
    · rw [heq]

theorem pushCommit_full (s : LinkrState) (sender pk : Nat)
    (h1 : ForwardInv s) (h2 : ReverseInv s)
    (hF0 : s.addressPubkey 0 = 0) (hR0 : s.pubkeyAddress 0 = 0)
    (hs : sender ≠ 0) (hp : pk ≠ 0) :
    ForwardInv (pushCommit s sender pk) ∧ ReverseInv (pushCommit s sender pk) ∧
    (pushCommit s sender pk).addressPubkey 0 = 0 ∧
    (pushCommit s sender pk).pubkeyAddress 0 = 0 := by
  obtain ⟨hf, hf0⟩ := pushCommit_forward s sender pk h1 hF0 hs
  refine ⟨hf, ?_, hf0, ?_⟩
  · intro p hp'
    by_cases hppk : p = pk
    · subst hppk
      rw [pushCommit_R_pk] at hp' ⊢
      rw [pushCommit_F_sender]
    · rw [pushCommit_R_other s sender pk p hppk] at hp' ⊢
      rcases pushR1_cases s sender p with ⟨hr, hrside⟩ | ⟨hr, _, _⟩
      · rw [hr] at hp' ⊢
        have hFa := h2 p hp'
        have hpne0 : p ≠ 0 := by
          intro h0; rw [h0, hR0] at hp'; exact hp' rfl
        by_cases hasend : s.pubkeyAddress p = sender
        · exfalso
          rw [hasend] at hFa
          rcases hrside with h0 | hne2
          · rw [h0] at hFa; exact hpne0 hFa.symm
          · exact hne2 hFa.symm
        · rw [pushCommit_F_other s sender pk _ hasend]
          rcases pushF1_cases s sender pk (s.pubkeyAddress p) with ⟨hfq, _⟩ | ⟨hfq, haoldne, haold⟩
          · rw [hfq]; exact hFa
          · exfalso
            rcases pushR1_cases s sender pk with ⟨hr2, _⟩ | ⟨hr2, _, _⟩
            · have heq2 : s.pubkeyAddress p = s.pubkeyAddress pk := by rw [haold, hr2]
              rw [heq2] at hp'
              have hFpk := h2 pk hp'
              rw [← heq2] at hFpk
              rw [hFa] at hFpk
              exact hppk hFpk
            · exact haoldne hr2
      · exact absurd hr hp'
  · rw [pushCommit_R_other s sender pk 0 (Ne.symm hp)]
    rcases pushR1_cases s sender 0 with ⟨hr, _⟩ | ⟨hr, _, _⟩
    · rw [hr, hR0]
    · rw [hr]

theorem pull_forward (s : LinkrState) (sender : Nat) (h1 : ForwardInv s)
    (hF0 : s.addressPubkey 0 = 0) :
    ForwardInv { addressPubkey := mapSet s.addressPubkey sender 0,
                 pubkeyAddress := mapSet s.pubkeyAddress (s.addressPubkey sender) 0 } ∧
    mapSet s.addressPubkey sender 0 0 = 0 := by
  constructor
  · intro a ha
    simp only at ha ⊢
    by_cases hasend : a = sender
    · subst hasend; rw [mapSet_same] at ha; exact absurd rfl ha
    · rw [mapSet_other _ _ _ _ hasend] at ha ⊢
      by_cases hfa : s.addressPubkey a = s.addressPubkey sender
      · exfalso
        have h1a := h1 a ha
        have hFsne : s.addressPubkey sender ≠ 0 := by rw [← hfa]; exact ha
        have h1s := h1 sender hFsne
        rw [hfa] at h1a
        rw [h1a] at h1s
        exact hasend h1s
      · rw [mapSet_other _ _ _ _ hfa]
        exact h1 a ha
  · unfold mapSet
    split <;> simp [hF0]

theorem pull_full (s : LinkrState) (sender : Nat)
    (h1 : ForwardInv s) (h2 : ReverseInv s)
    (hF0 : s.addressPubkey 0 = 0) (hR0 : s.pubkeyAddress 0 = 0) :
    ReverseInv { addressPubkey := mapSet s.addressPubkey sender 0,
                 pubkeyAddress := mapSet s.pubkeyAddress (s.addressPubkey sender) 0 } ∧
    mapSet s.pubkeyAddress (s.addressPubkey sender) 0 0 = 0 := by
  constructor
  · intro p hp'
    simp only at hp' ⊢
    by_cases hpf : p = s.addressPubkey sender
    · subst hpf; rw [mapSet_same] at hp'; exact absurd rfl hp'
    · rw [mapSet_other _ _ _ _ hpf] at hp' ⊢
      have hFa := h2 p hp'
      by_cases hasend : s.pubkeyAddress p = sender
      · exfalso
        rw [hasend] at hFa
        exact hpf hFa.symm
      · rw [mapSet_other _ _ _ _ hasend]
        exact hFa
  · unfold mapSet
    split <;> simp [hR0]

/-! ### Reachability inductions -/

theorem reachable_forward {s : LinkrState} (h : Reachable s) :
    ForwardInv s ∧ s.addressPubkey 0 = 0 := by
  induction h with
  | init =>
      constructor
      · intro a ha; exact absurd rfl ha
      · rfl
  | push hr hs hok ih =>
      rw [pushLinkr_ok hok]
      exact pushCommit_forward _ _ _ ih.1 ih.2 hs
  | pull hr hs hok ih =>
      obtain ⟨hne, heq⟩ := pullLinkr_ok hok
      rw [heq]
      exact pull_forward _ _ ih.1 ih.2

theorem reachableNZ_inv {s : LinkrState} (h : ReachableNZ s) :
    ForwardInv s ∧ ReverseInv s ∧
    s.addressPubkey 0 = 0 ∧ s.pubkeyAddress 0 = 0 := by
  induction h with
  | init =>
      refine ⟨fun a ha => absurd rfl ha, fun p hp => absurd rfl hp, rfl, rfl⟩
  | push hr hs hp hok ih =>
      rw [pushLinkr_ok hok]
      exact pushCommit_full _ _ _ ih.1 ih.2.1 ih.2.2.1 ih.2.2.2 hs hp
  | pull hr hs hok ih =>
      obtain ⟨hne, heq⟩ := pullLinkr_ok hok
      rw [heq]
      obtain ⟨hfwd, hf0⟩ := pull_forward _ _ ih.1 ih.2.2.1
      exact ⟨hfwd, (pull_full _ _ ih.1 ih.2.1 ih.2.2.1 ih.2.2.2).1, hf0,
        (pull_full _ _ ih.1 ih.2.1 ih.2.2.1 ih.2.2.2).2⟩

/-! ### Claims -/

/-- C1: `verifySchnorrSignature` (reached via `verifyNostrEvent`) accepts or
rejects purely by shape: a signature whose byte length is not 64 fails in
`verifyNostrEvent` with the signature-length error before anything else is
computed; for 64-byte signatures the verdict is exactly the range test
`0 < r < curveOrder ∧ 0 < s < curveOrder` on the big-endian split
`r = bytes 0..31`, `s = bytes 32..63`; and the verdict is independent of the
public key and the message digest — no elliptic-curve check is performed. -/
theorem c1_verify_schnorr_shape (eventId pubkey createdAt kind msgDigest : Nat)
    (tags content sig : List Nat) :
    (sig.length ≠ 64 →
      verifyNostrEvent eventId pubkey createdAt kind tags content sig =
        Except.error VerifyError.signatureNot64) ∧
    (sig.length = 64 →
      (verifySchnorrSignature pubkey msgDigest sig = true ↔
        (0 < sigR sig ∧ sigR sig < curveOrder ∧ 0 < sigS sig ∧ sigS sig < curveOrder))) ∧
    (∀ pubkey2 msgDigest2, verifySchnorrSignature pubkey2 msgDigest2 sig =
        verifySchnorrSignature pubkey msgDigest sig) := by
  refine ⟨?_, ?_, ?_⟩
  · intro h
    rw [verifyNostrEvent, if_pos h]
  · intro _
    unfold verifySchnorrSignature
    split_ifs with h1 h2 <;> simp <;> omega
  · intro _ _
    rfl

/-- C1 witness: a 63-byte signature is rejected with the length error, and
for the concrete in-range 64-byte signature `goodSig` the range test is the
verdict. -/
theorem c1_witness :
    verifyNostrEvent 0 0 0 0 [] [] (List.replicate 63 0) =
      Except.error VerifyError.signatureNot64 ∧
    (verifySchnorrSignature 5 7 goodSig = true ↔
      (0 < sigR goodSig ∧ sigR goodSig < curveOrder ∧ 0 < sigS goodSig ∧
        sigS goodSig < curveOrder)) :=
  ⟨(c1_verify_schnorr_shape 0 0 0 0 7 [] [] (List.replicate 63 0)).1 (by decide),
   (c1_verify_schnorr_shape 0 5 0 0 7 [] [] goodSig).2.1 (by decide)⟩

/-- C4: push atomicity — whenever `pushLinkr` fails (with any of the typed
errors), the transaction-level outcome is exactly the pre-call state paired
with that error; both mappings are left untouched, with no observable
partial update. -/
theorem c4_push_atomicity (s : LinkrState) (sender id pubkey createdAt kind : Nat)
    (tags content sig : List Nat) (now : Nat) (e : PushError)
    (h : pushLinkr s sender id pubkey createdAt kind tags content sig now =
      Except.error e) :
    pushLinkrTx s sender id pubkey createdAt kind tags content sig now = (s, some e) ∧
    (pushLinkrTx s sender id pubkey createdAt kind tags content sig now).1.addressPubkey =
      s.addressPubkey ∧
    (pushLinkrTx s sender id pubkey createdAt kind tags content sig now).1.pubkeyAddress =
      s.pubkeyAddress := by
  unfold pushLinkrTx
  rw [h]
  exact ⟨rfl, rfl, rfl⟩

/-- C4 witness: a concrete failing push (wrong kind) leaves the freshly
deployed state exactly as it was, paired with the typed error. -/
theorem c4_witness :
    pushLinkrTx initState 1 0 5 0 1 jsonEmptyTags [] (List.replicate 64 0) 0 =
      (initState, some PushError.invalidKind) :=
  (c4_push_atomicity initState 1 0 5 0 1 jsonEmptyTags [] (List.replicate 64 0) 0
    PushError.invalidKind rfl).1

/-- C6: pull semantics — `pullLinkr` fails with `noLinkFound` exactly when
the caller has no forward entry; on success it clears the caller's forward
entry and the old key's reverse entry in the same step, after which a second
pull by the same caller fails with `noLinkFound`. -/
theorem c6_pull_semantics (s : LinkrState) (sender : Nat) :
    (pullLinkr s sender = Except.error PullError.noLinkFound ↔
      s.addressPubkey sender = 0) ∧
    (∀ s', pullLinkr s sender = Except.ok s' →
      s'.addressPubkey sender = 0 ∧
      s'.pubkeyAddress (s.addressPubkey sender) = 0 ∧
      pullLinkr s' sender = Except.error PullError.noLinkFound) := by
  constructor
  · constructor
    · intro h
      by_contra hne
      rw [pullLinkr, if_neg hne] at h
      exact absurd h (by simp)
    · intro h
      rw [pullLinkr, if_pos h]
  · intro s' h
    obtain ⟨hne, heq⟩ := pullLinkr_ok h
    subst heq
    refine ⟨mapSet_same _ _ _, mapSet_same _ _ _, ?_⟩
    rw [pullLinkr, if_pos (mapSet_same _ _ _)]

/-- A concrete registry state in which account 1 is linked to key 5. -/
def c6State : LinkrState :=
  { addressPubkey := mapSet (fun _ => 0) 1 5,
    pubkeyAddress := mapSet (fun _ => 0) 5 1 }

/-- The state after account 1 pulls its link out of `c6State`. -/
def c6Pulled : LinkrState :=
  { addressPubkey := mapSet c6State.addressPubkey 1 0,
    pubkeyAddress := mapSet c6State.pubkeyAddress (c6State.addressPubkey 1) 0 }

/-- C6 witness: in the concrete one-link state `c6State` (account 1 linked
to key 5), pulling succeeds, clears both sides, and a second pull fails. -/
theorem c6_witness :
    pullLinkr c6State 1 = Except.ok c6Pulled ∧
    c6Pulled.addressPubkey 1 = 0 ∧ c6Pulled.pubkeyAddress 5 = 0 ∧
    pullLinkr c6Pulled 1 = Except.error PullError.noLinkFound := by
  have h : pullLinkr c6State 1 = Except.ok c6Pulled := rfl
  have hc := (c6_pull_semantics c6State 1).2 c6Pulled h
  exact ⟨h, hc.1, hc.2.1, hc.2.2⟩

/-- C8 counterexample: for an event with `kind = 1` carried by a 63-byte
signature, `pushLinkr` rejects with the signature-length error, not with
`invalidKind`; so "every event whose kind differs from 27235 is rejected
with InvalidKind" fails as stated — the signature length check runs first. -/
theorem c8_counterexample :
    pushLinkr initState 1 0 0 0 1 jsonEmptyTags [] (List.replicate 63 0) 0 =
      Except.error PushError.invalidSignatureLength ∧
    pushLinkr initState 1 0 0 0 1 jsonEmptyTags [] (List.replicate 63 0) 0 ≠
      Except.error PushError.invalidKind := by
  have h0 : pushLinkr initState 1 0 0 0 1 jsonEmptyTags [] (List.replicate 63 0) 0 =
      Except.error PushError.invalidSignatureLength := rfl
  refine ⟨h0, ?_⟩
  intro h
  rw [h0] at h
  exact absurd h (by simp)

/-- C8 (amended): for every event carried by a 64-byte signature whose kind
differs from 27235, `pushLinkr` rejects it with `invalidKind`, uniformly in
the asserted event id and the signature bytes — so no event-id recomputation
and no Schnorr range check is involved in the rejection. -/
theorem c8_kind_failfast (s : LinkrState) (sender pubkey createdAt kind : Nat)
    (tags content : List Nat) (now : Nat) (hkind : kind ≠ linkrKind) :
    ∀ id sig, sig.length = 64 →
      pushLinkr s sender id pubkey createdAt kind tags content sig now =
        Except.error PushError.invalidKind := by
  intro id sig hsig
  rw [pushLinkr, if_neg (by omega), if_pos hkind]

/-- C8 witness: the concrete wrong-kind event (kind 1, 64-byte signature) is
rejected with `invalidKind`. -/
theorem c8_witness :
    pushLinkr initState 1 0 0 0 1 jsonEmptyTags [] (List.replicate 64 0) 0 =
      Except.error PushError.invalidKind :=
  c8_kind_failfast initState 1 0 0 1 jsonEmptyTags [] 0 (by decide) 0
    (List.replicate 64 0) (by decide)

/-- C9: timestamp policy — given a 64-byte signature and the correct kind,
`pushLinkr` fails with `createdAtInFuture` exactly when `createdAt` exceeds
`now + skewTolerance`, where the tolerance is the fixed constant 10000
seconds; there is no lower bound, so any `createdAt ≤ now + skewTolerance`
(arbitrarily old, including 0) passes the timestamp check. -/
theorem c9_timestamp_policy (s : LinkrState) (sender id pubkey createdAt kind : Nat)
    (tags content sig : List Nat) (now : Nat)
    (hsig : sig.length = 64) (hkind : kind = linkrKind) :
    (pushLinkr s sender id pubkey createdAt kind tags content sig now =
        Except.error PushError.createdAtInFuture ↔
      now + skewTolerance < createdAt) ∧
    skewTolerance = 10000 := by
  refine ⟨⟨?_, ?_⟩, rfl⟩
  · intro h
    by_contra hc
    rw [pushLinkr, if_neg (by omega), if_neg (by simp [hkind]), if_neg hc] at h
    repeat' split at h
    all_goals simp_all
  · intro h
    rw [pushLinkr, if_neg (by omega), if_neg (by simp [hkind]), if_pos h]

/-- C9 witness: with `now = 0`, `createdAt = 10001` exceeds the tolerance
window and fails the timestamp check. -/
theorem c9_witness :
    (pushLinkr initState 1 0 0 10001 linkrKind jsonEmptyTags []
        (List.replicate 64 0) 0 = Except.error PushError.createdAtInFuture ↔
      0 + skewTolerance < 10001) ∧
    skewTolerance = 10000 :=
  c9_timestamp_policy initState 1 0 0 10001 linkrKind jsonEmptyTags []
    (List.replicate 64 0) 0 (by decide) rfl

/-- C3: canonical event serialization — `verifyNostrEvent` recomputes the
digest as SHA-256 of exactly the byte string
`[0,"<pubkey-hex>",<createdAt>,<kind>,<tags>,"<content>"]`: the pubkey
rendering is the 64-character lowercase unprefixed hex of the 32-byte key,
`createdAt` and `kind` are plain decimal integers with no leading zeros,
and `tags` is inserted verbatim with no added whitespace; the recomputed
digest is compared with the caller-asserted event id, any mismatch is
rejected with `eventIdMismatch`, and the asserted id is never trusted — a
non-error verdict forces it to equal the recomputed digest. -/
theorem c3_canonical_serialization (eventId pubkey createdAt kind : Nat)
    (tags content sig : List Nat) (hpk : pubkey < 2 ^ 256) :
    serializeNostrEvent pubkey createdAt kind tags content =
      strBytes "[0,\"" ++ bytesToHexNoPfx (natToBeBytes 32 pubkey) ++ strBytes "\"," ++
      uint2str createdAt ++ strBytes "," ++ uint2str kind ++ strBytes "," ++
      tags ++ strBytes ",\"" ++ content ++ strBytes "\"]" ∧
    (bytesToHexNoPfx (natToBeBytes 32 pubkey)).length = 64 ∧
    (∀ d, d ∈ bytesToHexNoPfx (natToBeBytes 32 pubkey) → isLowerHexDigit d = true) ∧
    hexValue (bytesToHexNoPfx (natToBeBytes 32 pubkey)) = pubkey ∧
    isPlainDecimal (uint2str createdAt) ∧ decValue (uint2str createdAt) = createdAt ∧
    isPlainDecimal (uint2str kind) ∧ decValue (uint2str kind) = kind ∧
    (sig.length = 64 →
      sha256Nat (serializeNostrEvent pubkey createdAt kind tags content) ≠ eventId →
      verifyNostrEvent eventId pubkey createdAt kind tags content sig =
        Except.error VerifyError.eventIdMismatch) ∧
    (∀ b, verifyNostrEvent eventId pubkey createdAt kind tags content sig = Except.ok b →
      sha256Nat (serializeNostrEvent pubkey createdAt kind tags content) = eventId) := by
  refine ⟨rfl, ?_, ?_, ?_, uint2str_plainDecimal _, uint2str_decValue _,
    uint2str_plainDecimal _, uint2str_decValue _, ?_, ?_⟩
  · rw [bytesToHexNoPfx_length, natToBeBytes_length]
  · exact bytesToHexNoPfx_digits _ (fun b hb => natToBeBytes_lt _ _ _ hb)
  · rw [hexValue_bytesToHexNoPfx _ (fun b hb => natToBeBytes_lt _ _ _ hb),
      beBytesToNat_natToBeBytes]
    have h256 : (256 : Nat) ^ 32 = 2 ^ 256 := by norm_num
    rw [h256]
    exact Nat.mod_eq_of_lt hpk
  · intro h64 hne
    rw [verifyNostrEvent, if_neg (by omega), if_pos hne]
  · intro b hb
    rw [verifyNostrEvent] at hb
    by_cases h64 : sig.length ≠ 64
    · rw [if_pos h64] at hb
      exact absurd hb (by simp)
    · rw [if_neg h64] at hb
      by_cases hne : sha256Nat (serializeNostrEvent pubkey createdAt kind tags content) ≠
          eventId
      · rw [if_pos hne] at hb
        exact absurd hb (by simp)
      · omega

/-- C3 witness: for the concrete key 5, the hex rendering round-trips, the
decimal renderings round-trip, and the concrete event with an asserted id
of 0 (which differs from the recomputed digest) is rejected. -/
theorem c3_witness :
    hexValue (bytesToHexNoPfx (natToBeBytes 32 5)) = 5 ∧
    decValue (uint2str 12) = 12 ∧ decValue (uint2str 34) = 34 ∧
    verifyNostrEvent 0 5 12 34 jsonEmptyTags [] (List.replicate 64 0) =
      Except.error VerifyError.eventIdMismatch := by
  have hc := c3_canonical_serialization 0 5 12 34 jsonEmptyTags [] (List.replicate 64 0)
    (by norm_num)
  exact ⟨hc.2.2.2.1, hc.2.2.2.2.2.1, hc.2.2.2.2.2.2.2.1,
    hc.2.2.2.2.2.2.2.2.1 (by decide) (by decide)⟩

/-- C7: content binding — once the earlier checks pass (64-byte signature,
correct kind, timely `createdAt`, empty tags), every content that is not
exactly the 40-character lowercase unprefixed hex rendering of the caller's
address is rejected with `contentMismatch`; and that rendering is
characterized exactly: 40 characters, all lowercase hex digits, and its
value is the caller's address — so any other rendering (uppercase,
prefixed, other address) is a different byte string and fails. -/
theorem c7_content_binding (s : LinkrState) (sender id pubkey createdAt kind : Nat)
    (tags content sig : List Nat) (now : Nat)
    (hsender : sender < 2 ^ 160) (hsig : sig.length = 64) (hkind : kind = linkrKind)
    (hca : createdAt ≤ now + skewTolerance) (htags : tags = jsonEmptyTags) :
    (content ≠ addressToStringNoPfx sender →
      pushLinkr s sender id pubkey createdAt kind tags content sig now =
        Except.error PushError.contentMismatch) ∧
    (addressToStringNoPfx sender).length = 40 ∧
    (∀ d, d ∈ addressToStringNoPfx sender → isLowerHexDigit d = true) ∧
    hexValue (addressToStringNoPfx sender) = sender := by
  refine ⟨?_, ?_, ?_, ?_⟩
  · intro hc
    rw [pushLinkr, if_neg (by omega), if_neg (by simp [hkind]), if_neg (by omega),
      if_neg (by simp [htags]), if_pos hc]
  · unfold addressToStringNoPfx
    rw [bytesToHexNoPfx_length, natToBeBytes_length]
  · unfold addressToStringNoPfx
    exact bytesToHexNoPfx_digits _ (fun b hb => natToBeBytes_lt _ _ _ hb)
  · unfold addressToStringNoPfx
    rw [hexValue_bytesToHexNoPfx _ (fun b hb => natToBeBytes_lt _ _ _ hb),
      beBytesToNat_natToBeBytes]
    have h160 : (256 : Nat) ^ 20 = 2 ^ 160 := by norm_num
    rw [h160, Nat.mod_mod_of_dvd _ dvd_rfl]
    exact Nat.mod_eq_of_lt hsender

/-- C7 witness: for caller 1, the empty content is rejected with
`contentMismatch`, and the required rendering evaluates back to 1. -/
theorem c7_witness :
    pushLinkr initState 1 0 0 0 linkrKind jsonEmptyTags [] (List.replicate 64 0) 0 =
      Except.error PushError.contentMismatch ∧
    hexValue (addressToStringNoPfx 1) = 1 := by
  have hc := c7_content_binding initState 1 0 0 0 linkrKind jsonEmptyTags []
    (List.replicate 64 0) 0 (by norm_num) (by decide) rfl (by decide) rfl
  exact ⟨hc.1 (by decide), hc.2.2.2⟩

/-- C5: re-link supersession — whenever `pushLinkr` succeeds from a
reachable state, the new pair is installed on both sides; if the caller
previously held a different key, that key's reverse entry is removed; if the
new key was previously claimed by a different account, that account's
forward entry is removed; and for a nonzero new key no account other than
the caller maps to it afterwards (last writer wins, with cleanup). -/
theorem c5_relink_supersession (s : LinkrState) (sender id pubkey createdAt kind now : Nat)
    (tags content sig : List Nat) (s' : LinkrState) (hreach : Reachable s)
    (h : pushLinkr s sender id pubkey createdAt kind tags content sig now =
      Except.ok s') :
    s'.addressPubkey sender = pubkey ∧
    s'.pubkeyAddress pubkey = sender ∧
    (s.addressPubkey sender ≠ 0 → s.addressPubkey sender ≠ pubkey →
      s'.pubkeyAddress (s.addressPubkey sender) = 0) ∧
    (s.pubkeyAddress pubkey ≠ 0 → s.pubkeyAddress pubkey ≠ sender →
      s'.addressPubkey (s.pubkeyAddress pubkey) = 0) ∧
    (pubkey ≠ 0 → ∀ b, b ≠ sender → s'.addressPubkey b ≠ pubkey) := by
  obtain ⟨hfwd, hF0⟩ := reachable_forward hreach
  rw [pushLinkr_ok h]
  refine ⟨pushCommit_F_sender _ _ _, pushCommit_R_pk _ _ _, ?_, ?_, ?_⟩
  · intro hpold hpne
    rw [pushCommit_R_other _ _ _ _ hpne]
    rcases pushR1_cases s sender (s.addressPubkey sender) with ⟨_, hside⟩ | ⟨hr, _, _⟩
    · rcases hside with h0 | hne2
      · exact absurd h0 hpold
      · exact absurd rfl hne2
    · exact hr
  · intro haold hane
    rw [pushCommit_F_other _ _ _ _ hane]
    rcases pushR1_cases s sender pubkey with ⟨hr, _⟩ | ⟨hr, hFs, hpk⟩
    · rcases pushF1_cases s sender pubkey (s.pubkeyAddress pubkey) with
        ⟨_, hfside⟩ | ⟨hf, _, _⟩
      · exfalso
        rcases hfside with h0 | hne2
        · rw [hr] at h0; exact haold h0
        · rw [hr] at hne2; exact hne2 rfl
      · exact hf
    · exfalso
      have hsend := hfwd sender hFs
      rw [← hpk] at hsend
      exact hane hsend
  · intro hp b hb
    rw [pushCommit_F_other _ _ _ _ hb]
    intro hbad
    rcases pushF1_cases s sender pubkey b with ⟨hf, hfside⟩ | ⟨hf, _, _⟩
    · rw [hf] at hbad
      have hbne0 : b ≠ 0 := by
        intro h0
        rw [h0, hF0] at hbad
        exact hp hbad.symm
      have hfb : s.addressPubkey b ≠ 0 := by rw [hbad]; exact hp
      have hRb := hfwd b hfb
      rw [hbad] at hRb
      rcases pushR1_cases s sender pubkey with ⟨hr, _⟩ | ⟨hr, hFs, hpk⟩
      · rw [hRb] at hr
        rcases hfside with h0 | hne2
        · rw [hr] at h0; exact hbne0 h0
        · rw [hr] at hne2; exact hne2 rfl
      · have hsend := hfwd sender hFs
        rw [← hpk] at hsend
        rw [hRb] at hsend
        exact hb hsend
    · rw [hf] at hbad
      exact hp hbad.symm

/-- The registry state after account 1 links key 5 from a fresh deployment. -/
def c5Mid : LinkrState := pushCommit initState 1 5

/-- C5 witness: a concrete successful push from the freshly deployed state
installs the pair (1, 5) on both sides. -/
theorem c5_witness :
    c5Mid.addressPubkey 1 = 5 ∧ c5Mid.pubkeyAddress 5 = 1 := by
  have h : pushLinkr initState 1 (goodId 1 5) 5 0 linkrKind jsonEmptyTags
      (addressToStringNoPfx 1) goodSig 0 = Except.ok c5Mid := rfl
  have hc := c5_relink_supersession initState 1 (goodId 1 5) 5 0 linkrKind 0
    jsonEmptyTags (addressToStringNoPfx 1) goodSig c5Mid Reachable.init h
  exact ⟨hc.1, hc.2.1⟩

/-- C10: zero-key sentinel — a `pushLinkr` that passes all validation with
the all-zero Schnorr pubkey succeeds and installs `pubkeyAddress 0 = sender`,
yet leaves `addressPubkey sender = 0`, which the interface reads as absence:
the caller's next `pullLinkr` fails with `noLinkFound`, leaving the zero-key
reverse entry in place — a zero key is indistinguishable from an unlinked
account at the public interface. -/
theorem c10_zero_key (s : LinkrState) (sender id createdAt kind now : Nat)
    (tags content sig : List Nat) (s' : LinkrState)
    (h : pushLinkr s sender id 0 createdAt kind tags content sig now = Except.ok s') :
    s'.pubkeyAddress 0 = sender ∧ s'.addressPubkey sender = 0 ∧
    pullLinkr s' sender = Except.error PullError.noLinkFound := by
  rw [pushLinkr_ok h]
  refine ⟨pushCommit_R_pk _ _ _, pushCommit_F_sender _ _ _, ?_⟩
  rw [pullLinkr, if_pos (pushCommit_F_sender _ _ _)]

/-- The registry state after account 1 pushes a linking event for the
all-zero pubkey from a fresh deployment. -/
def c10State : LinkrState := pushCommit initState 1 0

/-- C10 witness: the concrete zero-key push succeeds (all validation and
verification passes), installs the dangling reverse entry, and the caller's
pull then fails with `noLinkFound`. -/
theorem c10_witness :
    pushLinkr initState 1 (goodId 1 0) 0 0 linkrKind jsonEmptyTags
      (addressToStringNoPfx 1) goodSig 0 = Except.ok c10State ∧
    c10State.pubkeyAddress 0 = 1 ∧ c10State.addressPubkey 1 = 0 ∧
    pullLinkr c10State 1 = Except.error PullError.noLinkFound := by
  have h : pushLinkr initState 1 (goodId 1 0) 0 0 linkrKind jsonEmptyTags
      (addressToStringNoPfx 1) goodSig 0 = Except.ok c10State := rfl
  have hc := c10_zero_key initState 1 (goodId 1 0) 0 linkrKind 0 jsonEmptyTags
    (addressToStringNoPfx 1) goodSig c10State h
  exact ⟨h, hc.1, hc.2.1, hc.2.2⟩

/-- The state after account 1 links the all-zero key from a fresh
deployment (first step of the bijection counterexample trace). -/
def c2Mid : LinkrState := pushCommit initState 1 0

/-- The state after account 1 then links key 5 (second step of the
bijection counterexample trace). -/
def c2Bad : LinkrState := pushCommit c2Mid 1 5

/-- C2 counterexample: the reachable two-push trace (account 1 links the
all-zero key, then links key 5) ends in a state where the reverse entry of
key 0 still names account 1 while account 1's forward entry holds key 5 —
the reverse-to-forward direction of the claimed bijection invariant fails,
and account 1 appears on both sides of two different pairs. -/
theorem c2_counterexample :
    Reachable c2Bad ∧ c2Bad.pubkeyAddress 0 = 1 ∧ c2Bad.addressPubkey 1 = 5 ∧
    ¬ (∀ p, c2Bad.pubkeyAddress p ≠ 0 →
        c2Bad.addressPubkey (c2Bad.pubkeyAddress p) = p) := by
  have h1 : pushLinkr initState 1 (goodId 1 0) 0 0 linkrKind jsonEmptyTags
      (addressToStringNoPfx 1) goodSig 0 = Except.ok c2Mid := rfl
  have h2 : pushLinkr c2Mid 1 (goodId 1 5) 5 0 linkrKind jsonEmptyTags
      (addressToStringNoPfx 1) goodSig 0 = Except.ok c2Bad := rfl
  refine ⟨Reachable.push (Reachable.push Reachable.init (by decide) h1) (by decide) h2,
    by decide, by decide, ?_⟩
  intro hall
  have hx := hall 0 (by decide)
  revert hx
  decide

/-- C2 (amended): bijection invariant — over every state reachable by
sequences in which each successful push supplies a nonzero Schnorr pubkey,
the registry is a bijective partial mapping: each nonzero forward entry is
mirrored by the reverse map and vice versa, and no account and no key
belongs to two different linked pairs simultaneously.  (Without the
nonzero-pubkey restriction the invariant fails on a reachable state: see
`c2_counterexample`.) -/
theorem c2_bijection_nz (s : LinkrState) (h : ReachableNZ s) :
    ForwardInv s ∧ ReverseInv s ∧
    (∀ a p1 p2, Linked s a p1 → Linked s a p2 → p1 = p2) ∧
    (∀ a1 a2 p, Linked s a1 p → Linked s a2 p → a1 = a2) := by
  obtain ⟨h1, h2, hF0, hR0⟩ := reachableNZ_inv h
  refine ⟨h1, h2, ?_, ?_⟩
  · rintro a p1 p2 (⟨hp1, hf1⟩ | ⟨ha1, hr1⟩) (⟨hp2, hf2⟩ | ⟨ha2, hr2⟩)
    · rw [← hf1, ← hf2]
    · have hx := h2 p2 (by rw [hr2]; exact ha2)
      rw [hr2] at hx
      rw [← hf1]
      exact hx
    · have hx := h2 p1 (by rw [hr1]; exact ha1)
      rw [hr1] at hx
      rw [← hf2]
      exact hx.symm
    · have hx1 := h2 p1 (by rw [hr1]; exact ha1)
      have hx2 := h2 p2 (by rw [hr2]; exact ha2)
      rw [hr1] at hx1
      rw [hr2] at hx2
      rw [← hx1, ← hx2]
  · rintro a1 a2 p (⟨hp1, hf1⟩ | ⟨ha1, hr1⟩) (⟨hp2, hf2⟩ | ⟨ha2, hr2⟩)
    · have hx1 := h1 a1 (by rw [hf1]; exact hp1)
      have hx2 := h1 a2 (by rw [hf2]; exact hp2)
      rw [hf1] at hx1
      rw [hf2] at hx2
      rw [← hx1, ← hx2]
    · have hx1 := h1 a1 (by rw [hf1]; exact hp1)
      rw [hf1] at hx1
      rw [← hx1]
      exact hr2
    · have hx2 := h1 a2 (by rw [hf2]; exact hp2)
      rw [hf2] at hx2
      rw [← hx2]
      exact hr1.symm
    · rw [← hr1]
      exact hr2
  -- note: hF0/hR0 are part of the reachability invariant though not needed here

/-- The registry state after account 2 links the nonzero key 7 from a fresh
deployment. -/
def c2Good : LinkrState := pushCommit initState 2 7

/-- C2 witness: the one-push nonzero trace reaches `c2Good`, which carries
the pair (2, 7) on both sides and satisfies both invariant directions. -/
theorem c2_witness :
    ReachableNZ c2Good ∧ c2Good.addressPubkey 2 = 7 ∧ c2Good.pubkeyAddress 7 = 2 ∧
    ForwardInv c2Good ∧ ReverseInv c2Good := by
  have h : pushLinkr initState 2 (goodId 2 7) 7 0 linkrKind jsonEmptyTags
      (addressToStringNoPfx 2) goodSig 0 = Except.ok c2Good := rfl
  have hr : ReachableNZ c2Good :=
    ReachableNZ.push ReachableNZ.init (by decide) (by decide) h
  have hc := c2_bijection_nz c2Good hr
  exact ⟨hr, by decide, by decide, hc.1, hc.2.1⟩
